import Mathlib

/-!
Verification of the wmux gateway core against its specification.

Go strings are modelled as `List Char` (byte payloads of the output
decoder as `List Nat`), Go maps as association lists, and each Go
function of interest as a Lean function of the same name.  Fallible Go
functions return `Option` or a dedicated result inductive.
-/

set_option maxHeartbeats 1000000

/-- ASCII whitespace as recognised by Go's `unicode.IsSpace` on the
byte range our protocol uses (space, tab, newline, vertical tab, form
feed, carriage return). -/
def isGoSpace (c : Char) : Bool :=
  c = ' ' || c = '\t' || c = '\n' || c = '\x0b' || c = '\x0c' || c = '\r'

/-- Go `strings.TrimLeft`-style drop of leading whitespace. -/
def trimLeftSpace (s : List Char) : List Char :=
  s.dropWhile isGoSpace

/-- Drop of trailing whitespace. -/
def trimRightSpace (s : List Char) : List Char :=
  (s.reverse.dropWhile isGoSpace).reverse

/-- Go `strings.TrimSpace`. -/
def trimSpace (s : List Char) : List Char :=
  trimRightSpace (trimLeftSpace s)

/-- One-pass worker for `goFields`; `acc` holds the current word reversed. -/
def goFieldsAux : List Char → List Char → List (List Char)
  | [], acc => if acc = [] then [] else [acc.reverse]
  | c :: rest, acc =>
    if isGoSpace c then
      if acc = [] then goFieldsAux rest []
      else acc.reverse :: goFieldsAux rest []
    else goFieldsAux rest (c :: acc)

/-- Go `strings.Fields`: the maximal runs of non-whitespace characters. -/
def goFields (s : List Char) : List (List Char) :=
  goFieldsAux s []

/-- ASCII lower-casing of one character (Go `strings.ToLower` on the
command names this program compares, which are ASCII). -/
def toLowerChar (c : Char) : Char :=
  if 65 ≤ c.toNat ∧ c.toNat ≤ 90 then Char.ofNat (c.toNat + 32) else c

/-- ASCII lower-casing of a string. -/
def toLowerAscii (s : List Char) : List Char :=
  s.map toLowerChar

/-! ## Policy (internal/policy, `Default` and `Policy.Validate`) -/

/-- The allow-set installed by `policy.Default`. -/
def defaultAllowed : List (List Char) :=
  ["send-keys".toList, "refresh-client".toList, "kill-window".toList,
   "list-windows".toList, "list-panes".toList, "display-message".toList,
   "capture-pane".toList, "show-options".toList]

/-- Result of `Policy.Validate` / `Policy.ValidateCommand`. -/
inductive PolicyResult where
  | ok : PolicyResult
  | emptyCommand : PolicyResult
  | blocked (cmd : List Char) : PolicyResult
deriving DecidableEq

/-- Go `commandName`: trim the line, take the first whitespace field,
lower-case it; empty results stay empty. -/
def commandName (line : List Char) : List Char :=
  let t := trimSpace line
  if t = [] then []
  else
    match goFields t with
    | [] => []
    | w :: _ => toLowerAscii w

/-- Go `Policy.ValidateCommand` with the default allow-set. -/
def validateCommand (cmd : List Char) : PolicyResult :=
  if cmd = [] then .emptyCommand
  else if cmd ∈ defaultAllowed then .ok
  else .blocked cmd

/-- Go `Policy.Validate` for the default policy. -/
def policyValidate (line : List Char) : PolicyResult :=
  validateCommand (commandName line)

/-! Bridging lemmas: `commandName` splits the trimmed line into fields;
the claim speaks of the fields of the line itself, so we show trimming
does not change the fields. -/

theorem goFieldsAux_all_space (sp : List Char) (h : ∀ c ∈ sp, isGoSpace c) :
    goFieldsAux sp [] = [] := by
  induction sp with
  | nil => rfl
  | cons c rest ih =>
    rw [goFieldsAux]
    simp only [h c (List.mem_cons_self c rest), if_true, if_pos rfl]
    exact ih (fun d hd => h d (List.mem_cons_of_mem c hd))

theorem goFieldsAux_append_space (l : List Char) :
    ∀ acc (sp : List Char), (∀ c ∈ sp, isGoSpace c) →
      goFieldsAux (l ++ sp) acc = goFieldsAux l acc := by
  induction l with
  | nil =>
    intro acc sp h
    by_cases hacc : acc = []
    · subst hacc
      simpa using goFieldsAux_all_space sp h
    · cases sp with
      | nil => rfl
      | cons c rest =>
        simp only [List.nil_append, goFieldsAux, h c (List.mem_cons_self c rest),
          if_true, if_neg hacc]
        rw [goFieldsAux_all_space rest (fun d hd => h d (List.mem_cons_of_mem c hd))]
  | cons c rest ih =>
    intro acc sp h
    rw [List.cons_append, goFieldsAux, goFieldsAux]
    by_cases hc : isGoSpace c
    · simp only [hc, if_true]
      by_cases hacc : acc = []
      · simp only [hacc, if_pos rfl]
        exact ih [] sp h
      · simp only [if_neg hacc]
        rw [ih [] sp h]
    · simp only [hc, if_false]
      exact ih (c :: acc) sp h

theorem goFields_trimLeft (l : List Char) :
    goFields (trimLeftSpace l) = goFields l := by
  unfold trimLeftSpace goFields
  induction l with
  | nil => rfl
  | cons c rest ih =>
    by_cases hc : isGoSpace c
    · rw [List.dropWhile_cons_of_pos hc, goFieldsAux, if_pos hc, if_pos rfl]
      exact ih
    · rw [List.dropWhile_cons_of_neg (by simp [hc])]

theorem goFields_trimRight (l : List Char) :
    goFields (trimRightSpace l) = goFields l := by
  have hdec : l = trimRightSpace l ++ (l.reverse.takeWhile isGoSpace).reverse := by
    unfold trimRightSpace
    rw [← List.reverse_append, List.takeWhile_append_dropWhile, List.reverse_reverse]
  have hsp : ∀ c ∈ (l.reverse.takeWhile isGoSpace).reverse, isGoSpace c := by
    intro c hc
    exact List.mem_takeWhile_imp (List.mem_reverse.mp hc)
  calc goFields (trimRightSpace l)
      = goFields (trimRightSpace l ++ (l.reverse.takeWhile isGoSpace).reverse) :=
        (goFieldsAux_append_space _ [] _ hsp).symm
    _ = goFields l := by rw [← hdec]

theorem goFields_trimSpace (l : List Char) :
    goFields (trimSpace l) = goFields l := by
  rw [trimSpace, goFields_trimRight, goFields_trimLeft]

theorem goFieldsAux_ne_nil (l : List Char) :
    ∀ acc wd, wd ∈ goFieldsAux l acc → wd ≠ [] := by
  induction l with
  | nil =>
    intro acc wd hm
    by_cases hacc : acc = []
    · rw [goFieldsAux, if_pos hacc] at hm
      exact absurd hm (List.not_mem_nil wd)
    · rw [goFieldsAux, if_neg hacc] at hm
      rcases List.mem_singleton.mp hm with rfl
      simpa using hacc
  | cons c rest ih =>
    intro acc wd hm
    rw [goFieldsAux] at hm
    by_cases hc : isGoSpace c
    · simp only [hc, if_true] at hm
      by_cases hacc : acc = []
      · rw [if_pos hacc] at hm
        exact ih [] wd hm
      · rw [if_neg hacc] at hm
        rcases List.mem_cons.mp hm with rfl | hm2
        · simpa using hacc
        · exact ih [] wd hm2
    · simp only [hc, if_false] at hm
      exact ih (c :: acc) wd hm

theorem commandName_eq_fields (line : List Char) :
    commandName line =
      (match goFields line with
       | [] => []
       | w :: _ => toLowerAscii w) := by
  unfold commandName
  by_cases ht : trimSpace line = []
  · have : goFields line = [] := by
      rw [← goFields_trimSpace, ht]; rfl
    simp [ht, this]
  · rw [if_neg ht, goFields_trimSpace]

/-- Claim C5: `Policy.Validate` succeeds exactly when the lowercased
first whitespace-separated token of the line is one of the eight
allowed names; an empty or whitespace-only line fails with the
empty-command error, and any other first token fails with a
blocked-command error naming the lowercased token. -/
theorem C5_policy_allowlist (line : List Char) :
    (policyValidate line = .ok ↔
      (match goFields line with
       | [] => False
       | w :: _ => toLowerAscii w ∈
          ["send-keys".toList, "refresh-client".toList, "kill-window".toList,
           "list-windows".toList, "list-panes".toList, "display-message".toList,
           "capture-pane".toList, "show-options".toList])) ∧
    ((∀ c ∈ line, isGoSpace c) → policyValidate line = .emptyCommand) ∧
    (∀ w ws, goFields line = w :: ws →
      toLowerAscii w ∉
        ["send-keys".toList, "refresh-client".toList, "kill-window".toList,
         "list-windows".toList, "list-panes".toList, "display-message".toList,
         "capture-pane".toList, "show-options".toList] →
      policyValidate line = .blocked (toLowerAscii w)) := by
  have hcn := commandName_eq_fields line
  refine ⟨?_, ?_, ?_⟩
  · unfold policyValidate validateCommand
    rw [hcn]
    match hf : goFields line with
    | [] => simp
    | w :: ws =>
      have hw : w ≠ [] := goFieldsAux_ne_nil line [] w (by rw [← goFields]; simp [hf])
      have hlw : toLowerAscii w ≠ [] := by
        simpa [toLowerAscii] using hw
      rw [if_neg hlw]
      by_cases hmem : toLowerAscii w ∈ defaultAllowed
      · rw [if_pos hmem]
        exact iff_of_true rfl (by simpa [defaultAllowed] using hmem)
      · rw [if_neg hmem]
        exact iff_of_false (by simp) (by simpa [defaultAllowed] using hmem)
  · intro hsp
    have hf : goFields line = [] := goFieldsAux_all_space line hsp
    unfold policyValidate validateCommand
    rw [hcn, hf]
    rfl
  · intro w ws hf hmem
    have hw : w ≠ [] := goFieldsAux_ne_nil line [] w (by rw [← goFields]; simp [hf])
    have hlw : toLowerAscii w ≠ [] := by
      simpa [toLowerAscii] using hw
    unfold policyValidate validateCommand
    rw [hcn, hf]
    rw [if_neg hlw, if_neg (by simpa [defaultAllowed] using hmem)]

/-- Witness for C5 at concrete inputs: "list-panes -a" is allowed. -/
theorem C5_policy_allowlist_witness :
    policyValidate "list-panes -a".toList = .ok :=
  (C5_policy_allowlist "list-panes -a".toList).1.mpr (by
    show toLowerAscii "list-panes".toList ∈ _
    decide)

/-! ## Shared parsing helpers -/

/-- Decimal digit test. -/
def isDigitChar (c : Char) : Bool :=
  48 ≤ c.toNat && c.toNat ≤ 57

/-- Go `strconv.ParseInt(s, 10, 64)` (and `strconv.Atoi` on 64-bit
platforms): optional sign, at least one decimal digit, 64-bit range. -/
def parseInt64 (s : List Char) : Option Int :=
  match s with
  | [] => none
  | c :: rest =>
    let neg := c = '-'
    let digits := if c = '+' || c = '-' then rest else s
    if digits = [] then none
    else if digits.all isDigitChar then
      let v : Nat := digits.foldl (fun a d => a * 10 + (d.toNat - 48)) 0
      let i : Int := if neg then -(v : Int) else (v : Int)
      if -(2 ^ 63) ≤ i ∧ i ≤ 2 ^ 63 - 1 then some i else none
    else none

/-- Split on a separator character, Go `strings.Split` style (empty
segments are kept; the result is never empty). -/
def splitSepAux (sep : Char) : List Char → List Char → List (List Char)
  | [], acc => [acc.reverse]
  | c :: rest, acc =>
    if c = sep then acc.reverse :: splitSepAux sep rest []
    else splitSepAux sep rest (c :: acc)

/-- Go `strings.Split(s, string(sep))`. -/
def splitSep (sep : Char) (s : List Char) : List (List Char) :=
  splitSepAux sep s []

/-- Go `strings.HasPrefix`. -/
def startsWithL (pre s : List Char) : Bool :=
  pre.isPrefixOf s

/-- Go `strings.TrimPrefix`. -/
def dropPreL (pre s : List Char) : List Char :=
  if startsWithL pre s then s.drop pre.length else s

/-! ## Supervisor `Send` (internal/tmuxproc/manager.go) -/

/-- The supervisor state guarded by its mutex: the running flag and
whether a subprocess writer is currently published (`stdin != nil`). -/
structure ManagerState where
  running : Bool
  stdinPresent : Bool
deriving DecidableEq

/-- Outcome of `Manager.Send`: the not-ready error, or the exact bytes
written to the subprocess writer. -/
inductive SendOutcome where
  | notReady : SendOutcome
  | wrote (bytes : List Char) : SendOutcome
deriving DecidableEq

/-- Go `Manager.Send`: fail fast unless running with a writer, else
write the line followed by one newline. -/
def managerSend (st : ManagerState) (line : List Char) : SendOutcome :=
  if !st.running || !st.stdinPresent then .notReady
  else .wrote (line ++ ['\n'])

/-- Claim C8: with no published writer `Send` returns the not-ready
error and writes nothing; with a writer it writes exactly the line
plus a single newline. -/
theorem C8_send_gate (st : ManagerState) (line : List Char) :
    (¬(st.running = true ∧ st.stdinPresent = true) →
      managerSend st line = .notReady) ∧
    (st.running = true → st.stdinPresent = true →
      managerSend st line = .wrote (line ++ ['\n'])) := by
  constructor
  · intro h
    unfold managerSend
    cases hr : st.running with
    | false => simp
    | true =>
      cases hs : st.stdinPresent with
      | false => simp
      | true => exact absurd ⟨hr, hs⟩ h
  · intro hr hs
    unfold managerSend
    rw [hr, hs]
    rfl

/-- Witness for C8 at a concrete state and line. -/
theorem C8_send_gate_witness :
    managerSend ⟨true, true⟩ "list-panes".toList =
      .wrote ("list-panes".toList ++ ['\n']) :=
  (C8_send_gate ⟨true, true⟩ "list-panes".toList).2 rfl rfl

/-! ## Pane/window model as committed in src (wshub model file, part_004)

The file defines `windowPayload`/`panePayload` without session-name or
current-command fields and `parsePane` reads the pane id from field 1,
the window id from field 2 and the pane index from field 3. -/

/-- `windowPayload` of the committed model file. -/
structure windowPayload where
  id : List Char
  index : Int
  name : List Char
deriving DecidableEq

/-- `panePayload` of the committed model file: note there is no
session-name and no current-command field. -/
structure panePayload where
  id : List Char
  windowID : List Char
  paneIndex : Int
  active : Bool
  left : Int
  top : Int
  width : Int
  height : Int
  title : List Char
deriving DecidableEq

/-- `statePayload` of the committed model file. -/
structure statePayload where
  windows : List windowPayload
  panes : List panePayload
deriving DecidableEq

/-- Association-list stand-in for a Go map: lookup by key. -/
def lookupAssoc {β : Type} (k : List Char) : List (List Char × β) → Option β
  | [] => none
  | (k', v) :: rest => if k' = k then some v else lookupAssoc k rest

/-- Association-list stand-in for a Go map: insert or replace. -/
def upsertAssoc {β : Type} (k : List Char) (v : β) :
    List (List Char × β) → List (List Char × β)
  | [] => [(k, v)]
  | (k', v') :: rest =>
    if k' = k then (k, v) :: rest else (k', v') :: upsertAssoc k v rest

/-- `modelState`: the two maps of the committed model file. -/
structure modelState where
  windows : List (List Char × windowPayload)
  panes : List (List Char × panePayload)
deriving DecidableEq

/-- Go `newModelState`. -/
def newModelState : modelState := ⟨[], []⟩

/-- Go `(*modelState).reset`. -/
def modelReset (_ : modelState) : modelState := ⟨[], []⟩

/-- The `__WMUX__` marker (`modelPrefix` in the source). -/
def wmuxMarker : List Char := "__WMUX__".toList

/-- Go `parsePane` of the committed model file: field 1 is the pane id,
field 2 the window id, field 3 the pane index, field 4 the active flag,
fields 5-8 the geometry and field 9 the title. -/
def parsePane (parts : List (List Char)) : Option panePayload := do
  let paneIndex ← parseInt64 (parts.getD 3 [])
  let left ← parseInt64 (parts.getD 5 [])
  let top ← parseInt64 (parts.getD 6 [])
  let width ← parseInt64 (parts.getD 7 [])
  let height ← parseInt64 (parts.getD 8 [])
  pure
    { id := parts.getD 1 []
      windowID := parts.getD 2 []
      paneIndex := paneIndex
      active := parts.getD 4 [] = "1".toList
      left := left
      top := top
      width := width
      height := height
      title := parts.getD 9 [] }

/-- One iteration of the loop in `applyOutputLines`: returns the updated
model and whether this line changed it. -/
def applyOneLine (m : modelState) (line : List Char) : modelState × Bool :=
  if !startsWithL wmuxMarker line then (m, false)
  else
    let parts := splitSep '\t' line
    let kind := dropPreL (wmuxMarker ++ ['_']) (parts.getD 0 [])
    if kind = "win".toList then
      if parts.length < 4 then (m, false)
      else
        match parseInt64 (parts.getD 2 []) with
        | none => (m, false)
        | some idx =>
          let next : windowPayload := ⟨parts.getD 1 [], idx, parts.getD 3 []⟩
          match lookupAssoc next.id m.windows with
          | some cur =>
            if cur = next then (m, false)
            else ({ m with windows := upsertAssoc next.id next m.windows }, true)
          | none => ({ m with windows := upsertAssoc next.id next m.windows }, true)
    else if kind = "pane".toList then
      if parts.length < 10 then (m, false)
      else
        match parsePane parts with
        | none => (m, false)
        | some pane =>
          match lookupAssoc pane.id m.panes with
          | some cur =>
            if cur = pane then (m, false)
            else ({ m with panes := upsertAssoc pane.id pane m.panes }, true)
          | none => ({ m with panes := upsertAssoc pane.id pane m.panes }, true)
    else (m, false)

/-- Go `(*modelState).applyOutputLines`: fold `applyOneLine` over the
lines, accumulating the `updated` flag. -/
def applyOutputLines (m : modelState) (lines : List (List Char)) :
    modelState × Bool :=
  lines.foldl
    (fun acc line =>
      let r := applyOneLine acc.1 line
      (r.1, acc.2 || r.2))
    (m, false)

/-- Byte-wise (here character-wise) string less-than, as Go compares
strings. -/
def strLt : List Char → List Char → Bool
  | [], [] => false
  | [], _ :: _ => true
  | _ :: _, [] => false
  | a :: as, b :: bs =>
    if a.toNat < b.toNat then true
    else if b.toNat < a.toNat then false
    else strLt as bs

/-- The window comparator of `snapshot`: by index, then id. -/
def winLess (a b : windowPayload) : Bool :=
  if a.index = b.index then strLt a.id b.id else decide (a.index < b.index)

/-- The pane comparator of `snapshot`: by window id, pane index, id. -/
def paneLess (a b : panePayload) : Bool :=
  if a.windowID = b.windowID then
    if a.paneIndex = b.paneIndex then strLt a.id b.id
    else decide (a.paneIndex < b.paneIndex)
  else strLt a.windowID b.windowID

/-- Insertion step for `sortByLt`. -/
def insertByLt {α : Type} (lt : α → α → Bool) (x : α) : List α → List α
  | [] => [x]
  | y :: ys => if lt y x then y :: insertByLt lt x ys else x :: y :: ys

/-- Insertion sort with a strict comparator.  `snapshot` sorts with
`sort.Slice`; on the key-unique lists produced from the maps any sort
by the same comparator yields the same list. -/
def sortByLt {α : Type} (lt : α → α → Bool) (l : List α) : List α :=
  l.foldr (insertByLt lt) []

/-- Go `(*modelState).snapshot`: the map values sorted by the two
comparators. -/
def snapshot (m : modelState) : statePayload :=
  { windows := sortByLt winLess (m.windows.map (·.2))
    panes := sortByLt paneLess (m.panes.map (·.2)) }

/-- The two query-response lines of claim C1. -/
def c1Lines : List (List Char) :=
  ["__WMUX___win\t@1\t0\teditor".toList,
   "__WMUX___pane\tdev\t%3\t@1\t1\t1\t0\t0\t200\t60\tzsh\tmy-title".toList]

/-- Claim C1, evaluated on the committed model code at the claim's own
input: the window line is applied, but the pane line is dropped
(`parsePane` reads "@1" where it expects the pane index, and the pane
record has no session-name or current-command field at all), so the
resulting snapshot has one window and no pane — contradicting the
claim and the model's own tests. -/
theorem C1_pane_line_dropped :
    (applyOutputLines newModelState c1Lines).2 = true ∧
    snapshot (applyOutputLines newModelState c1Lines).1 =
      { windows := [⟨"@1".toList, 0, "editor".toList⟩], panes := [] } := by
  constructor
  · decide
  · decide

/-! ## Hub snapshot filtering (internal/wshub/hub.go,
`filterStateToTargetSession`) -/

/-- Modelled from the spec: the pane record the hub's filter and tests
dereference (`SessionName`, `Name`) is missing from the committed model
file, so its field set follows the spec's Pane data model. -/
structure paneRecord where
  id : List Char
  windowID : List Char
  sessionName : List Char
  paneIndex : Int
  active : Bool
  left : Int
  top : Int
  width : Int
  height : Int
  name : List Char
  title : List Char
deriving DecidableEq

/-- The state payload over full pane records, as the hub snapshots it. -/
structure hubStatePayload where
  windows : List windowPayload
  panes : List paneRecord
deriving DecidableEq

/-- Go `filterStateToTargetSession` (hub.go): keep panes of the target
session and the windows they reference; the window-id set of the source
is modelled by an `any` over the kept panes. -/
def filterStateToTargetSession (state : hubStatePayload)
    (targetSession : List Char) : hubStatePayload :=
  if targetSession = [] then state
  else
    let filteredPanes :=
      state.panes.filter (fun p => p.sessionName == targetSession)
    let filteredWindows :=
      state.windows.filter (fun w =>
        filteredPanes.any (fun p => p.windowID == w.id))
    ⟨filteredWindows, filteredPanes⟩

/-- Claim C9: the snapshot filter is idempotent, filtering by the empty
string is the identity, and a filtered snapshot holds exactly the panes
of the target session plus exactly the windows they reference. -/
theorem C9_filter_idempotent (state : hubStatePayload) (s : List Char) :
    filterStateToTargetSession (filterStateToTargetSession state s) s =
      filterStateToTargetSession state s ∧
    filterStateToTargetSession state [] = state ∧
    (s ≠ [] →
      (filterStateToTargetSession state s).panes =
        state.panes.filter (fun p => p.sessionName == s) ∧
      (filterStateToTargetSession state s).windows =
        state.windows.filter (fun w =>
          (filterStateToTargetSession state s).panes.any
            (fun p => p.windowID == w.id))) := by
  refine ⟨?_, by rw [filterStateToTargetSession, if_pos rfl], ?_⟩
  · by_cases hs : s = []
    · subst hs
      rw [filterStateToTargetSession, if_pos rfl]
    · rw [filterStateToTargetSession, if_neg hs,
        filterStateToTargetSession, if_neg hs]
      have hpanes :
          (state.panes.filter (fun p => p.sessionName == s)).filter
              (fun p => p.sessionName == s) =
            state.panes.filter (fun p => p.sessionName == s) :=
        List.filter_eq_self.mpr
          (fun p hp => (List.mem_filter.mp hp).2)
      simp only [hpanes]
      congr 1
      exact List.filter_eq_self.mpr
        (fun w hw => (List.mem_filter.mp hw).2)
  · intro hs
    simp [filterStateToTargetSession, if_neg hs]

/-- Witness for C9 at a concrete two-session state. -/
theorem C9_filter_idempotent_witness :
    (filterStateToTargetSession
        ⟨[⟨"@1".toList, 0, "dev".toList⟩, ⟨"@2".toList, 1, "ops".toList⟩],
         [⟨"%1".toList, "@1".toList, "dev".toList, 0, true, 0, 0, 80, 24,
            "zsh".toList, "t1".toList⟩,
          ⟨"%2".toList, "@2".toList, "ops".toList, 0, true, 0, 0, 80, 24,
            "zsh".toList, "t2".toList⟩]⟩
        "dev".toList).panes =
      [⟨"%1".toList, "@1".toList, "dev".toList, 0, true, 0, 0, 80, 24,
         "zsh".toList, "t1".toList⟩] := by
  have h := (C9_filter_idempotent
    ⟨[⟨"@1".toList, 0, "dev".toList⟩, ⟨"@2".toList, 1, "ops".toList⟩],
     [⟨"%1".toList, "@1".toList, "dev".toList, 0, true, 0, 0, 80, 24,
        "zsh".toList, "t1".toList⟩,
      ⟨"%2".toList, "@2".toList, "ops".toList, 0, true, 0, 0, 80, 24,
        "zsh".toList, "t2".toList⟩]⟩
    "dev".toList).2.2 (by decide)
  rw [h.1]
  decide

/-! ## Hub envelopes, pending FIFO, restart handling (hub.go) -/

/-- The three-integer block header of `%begin`/`%end`/`%error`. -/
structure BlockHeader where
  epochSeconds : Int
  commandID : Int
  flags : Int
deriving DecidableEq

/-- `commandPayload` of the `tmux_command` envelope. -/
structure commandPayload where
  epochSeconds : Int
  commandID : Int
  flags : Int
  success : Bool
  output : List (List Char)
deriving DecidableEq

/-- The typed server envelopes broadcast by the hub (`serverMsg` with
its `t` tag and the one payload that tag carries). -/
inductive ServerMsg where
  | tmuxState (windows : List windowPayload) (panes : List panePayload)
  | tmuxRestarted
  | tmuxCommand (c : commandPayload)
  | paneSnapshot (paneID : List Char) (data : List Char)
  | paneCursor (paneID : List Char) (x y : Int)
  | errorMsg (message : List Char)
deriving DecidableEq

/-- `pendingCommand`: the Go struct, with the optional result channel
abstracted to the flag `hasWait` (nil channel versus present). -/
structure pendingCommand where
  name : List Char
  targetPane : List Char
  emitPaneSnapshot : Bool
  hasWait : Bool
deriving DecidableEq

/-- The hub state touched by `BroadcastRestart`: the model and the
pending FIFO. -/
structure HubCore where
  model : modelState
  pending : List pendingCommand
deriving DecidableEq

/-- Go `Hub.BroadcastRestart` as a state transition: reset the model,
clear the FIFO, and broadcast the empty-state snapshot followed by the
restarted marker.  (Recreating the parser and scheduling the retried
`list-panes` query touch no model, FIFO or broadcast state and are
outside this transition.) -/
def broadcastRestart (h : HubCore) : HubCore × List ServerMsg :=
  let model' := modelReset h.model
  let snap := snapshot model'
  (⟨model', []⟩, [.tmuxState snap.windows snap.panes, .tmuxRestarted])

/-- Claim C6: after `BroadcastRestart` the model is empty, the pending
FIFO is empty, and exactly two envelopes go out, in order: a
`tmux_state` with empty windows and panes, then `tmux_restarted`. -/
theorem C6_restart_broadcast (h : HubCore) :
    (broadcastRestart h).1.model = newModelState ∧
    (broadcastRestart h).1.pending = [] ∧
    (broadcastRestart h).2 = [.tmuxState [] [], .tmuxRestarted] := by
  exact ⟨rfl, rfl, rfl⟩

/-- Go `Hub.shiftPending`: pop the FIFO head, or return the zero-value
entry when the FIFO is empty. -/
def shiftPending : List pendingCommand → pendingCommand × List pendingCommand
  | [] => (⟨[], [], false, false⟩, [])
  | p :: rest => (p, rest)

/-- Go `parsePaneCursorOutput`: a cursor triple from the first output
line. -/
def parsePaneCursorOutput (lines : List (List Char)) : Option (Int × Int) :=
  match lines with
  | [] => none
  | l0 :: _ =>
    let parts := splitSep '\t' (trimSpace l0)
    if parts.length = 3 ∧ parts.getD 0 [] = "__WMUX_CURSOR".toList then
      match parseInt64 (parts.getD 1 []), parseInt64 (parts.getD 2 []) with
      | some x, some y => some (x, y)
      | _, _ => none
    else none

/-- A parsed `Command` block as the hub consumes it. -/
structure CommandEvent where
  header : BlockHeader
  endHeader : BlockHeader
  success : Bool
  output : List (List Char)
deriving DecidableEq

/-- Go `strings.Join(lines, "\n")`. -/
def joinLines (lines : List (List Char)) : List Char :=
  List.intercalate ['\n'] lines

/-- The `Command` case of `Hub.consumeParserEvents`: shift one pending
entry, deliver to its awaiter if any, apply model-update lines,
broadcast the command envelope, then the state/pane-snapshot/cursor
envelopes their conditions call for.  Returns the new model, the new
FIFO, the awaiter deliveries, and the broadcasts in order. -/
def consumeCommand (model : modelState) (pending : List pendingCommand)
    (e : CommandEvent) :
    modelState × List pendingCommand × List (Bool × List (List Char)) ×
      List ServerMsg :=
  let r := shiftPending pending
  let p := r.1
  let deliveries := if p.hasWait then [(e.success, e.output)] else []
  let a := applyOutputLines model e.output
  let base : List ServerMsg :=
    [.tmuxCommand ⟨e.header.epochSeconds, e.header.commandID,
      e.header.flags, e.success, e.output⟩]
  let stateMsgs : List ServerMsg :=
    if a.2 then [.tmuxState (snapshot a.1).windows (snapshot a.1).panes] else []
  let snapMsgs : List ServerMsg :=
    if p.name = "capture-pane".toList ∧ p.targetPane ≠ [] ∧ p.emitPaneSnapshot
    then [.paneSnapshot p.targetPane (joinLines e.output)] else []
  let cursorMsgs : List ServerMsg :=
    if p.name = "display-message".toList ∧ p.targetPane ≠ [] then
      match parsePaneCursorOutput e.output with
      | some xy => [.paneCursor p.targetPane xy.1 xy.2]
      | none => []
    else []
  (a.1, r.2, deliveries, base ++ stateMsgs ++ snapMsgs ++ cursorMsgs)

/-- Envelope classifiers used to state claim C10. -/
def isTmuxCommandMsg : ServerMsg → Bool
  | .tmuxCommand _ => true
  | _ => false

/-- True exactly on `pane_snapshot` envelopes. -/
def isPaneSnapshotMsg : ServerMsg → Bool
  | .paneSnapshot _ _ => true
  | _ => false

/-- True exactly on `pane_cursor` envelopes. -/
def isPaneCursorMsg : ServerMsg → Bool
  | .paneCursor _ _ _ => true
  | _ => false

/-- Claim C10: an unsolicited `Command` (empty FIFO) still broadcasts
its `tmux_command` envelope, delivers to no awaiter, broadcasts no
`pane_snapshot` and no `pane_cursor`, and leaves the FIFO empty;
`shiftPending` hands back the zero-value entry rather than failing. -/
theorem C10_unsolicited_command (model : modelState) (e : CommandEvent) :
    shiftPending [] = (⟨[], [], false, false⟩, []) ∧
    (consumeCommand model [] e).2.1 = [] ∧
    (consumeCommand model [] e).2.2.1 = [] ∧
    (consumeCommand model [] e).2.2.2.filter isTmuxCommandMsg =
      [.tmuxCommand ⟨e.header.epochSeconds, e.header.commandID,
        e.header.flags, e.success, e.output⟩] ∧
    (∀ m ∈ (consumeCommand model [] e).2.2.2,
      isPaneSnapshotMsg m = false ∧ isPaneCursorMsg m = false) := by
  refine ⟨rfl, rfl, rfl, ?_, ?_⟩
  · show (consumeCommand model [] e).2.2.2.filter isTmuxCommandMsg = _
    unfold consumeCommand
    simp only [shiftPending]
    cases hch : (applyOutputLines model e.output).2 <;>
      simp [isTmuxCommandMsg, hch]
  · intro m hm
    unfold consumeCommand at hm
    simp only [shiftPending] at hm
    cases hch : (applyOutputLines model e.output).2 <;>
      rw [hch] at hm <;> simp at hm <;>
      rcases hm with rfl | rfl <;> simp [isPaneSnapshotMsg, isPaneCursorMsg]

/-! ## Control-mode parser (internal/tmuxparse/parser.go, stream.go) -/

/-- Split at the first occurrence of `sep`; `none` when absent. -/
def splitAtFirst (sep : Char) : List Char → Option (List Char × List Char)
  | [] => none
  | c :: rest =>
    if c = sep then some ([], rest)
    else (splitAtFirst sep rest).map (fun p => (c :: p.1, p.2))

/-- Go `splitNameAndRest`: first space-separated token and the raw
remainder after one space. -/
def splitNameAndRest (s : List Char) : List Char × List Char :=
  if s = [] then ([], [])
  else
    match splitAtFirst ' ' s with
    | none => (s, [])
    | some p => p

/-- Go `splitFirstTokenPreserve`: drop leading spaces, take one token,
keep the remainder after exactly one separator space verbatim. -/
def splitFirstTokenPreserve (s : List Char) : List Char × List Char :=
  let t := s.dropWhile (fun c => c = ' ')
  if t = [] then ([], [])
  else
    match splitAtFirst ' ' t with
    | none => (t, [])
    | some p => p

/-- Go `splitOnce`: trim, split at the first `sep`, trim the tail. -/
def splitOnce (s : List Char) (sep : Char) : List Char × List Char :=
  let t := trimSpace s
  if t = [] then ([], [])
  else
    match splitAtFirst sep t with
    | none => (t, [])
    | some p => (p.1, trimSpace p.2)

/-- Go `splitByColon`: split at the first colon; the left part is
trimmed of surrounding whitespace, the right part of all leading
spaces (`strings.TrimLeft(s, " ")`). -/
def splitByColon (s : List Char) : List Char × List Char :=
  match splitAtFirst ':' s with
  | some p => (trimSpace p.1, p.2.dropWhile (fun c => c = ' '))
  | none => (trimSpace s, [])

/-- Go `takeTwoAndTail`. -/
def takeTwoAndTail (s : List Char) : List Char × List Char × List Char :=
  let r1 := splitOnce (trimSpace s) ' '
  let r2 := splitOnce (trimSpace r1.2) ' '
  (r1.1, r2.1, r2.2)

/-- A parsed `%`-notification (types.go `Notification`). -/
structure Notification where
  name : List Char
  raw : List Char
  args : List (List Char) := []
  text : List Char := []
  value : List Char := []
deriving DecidableEq

/-- Go `parseNotification`; `none` models the error return. -/
def parseNotification (line : List Char) : Option Notification :=
  if line.head? ≠ some '%' then none
  else
      let nr := splitNameAndRest (dropPreL ['%'] line)
      let name := nr.1
      let rest := nr.2
      if name = "output".toList then
        let pv := splitFirstTokenPreserve rest
        if pv.1 = [] then none
        else some { name := name, raw := line, args := [pv.1], value := pv.2 }
      else if name = "extended-output".toList then
        let bv := splitByColon rest
        let fs := goFields bv.1
        if fs.length < 2 then none
        else some { name := name, raw := line, args := fs, value := bv.2 }
      else if name = "subscription-changed".toList then
        let bv := splitByColon rest
        let fs := goFields bv.1
        if fs.length < 5 then none
        else some { name := name, raw := line, args := fs, value := bv.2 }
      else if name = "message".toList ∨ name = "config-error".toList ∨
          name = "session-renamed".toList ∨ name = "exit".toList then
        some { name := name, raw := line, text := trimSpace rest }
      else if name = "client-session-changed".toList then
        let t := takeTwoAndTail rest
        if t.1 = [] ∨ t.2.1 = [] then none
        else some { name := name, raw := line, args := [t.1, t.2.1], text := t.2.2 }
      else if name = "session-changed".toList ∨ name = "window-renamed".toList then
        let r := splitOnce (trimSpace rest) ' '
        if r.1 = [] then none
        else some { name := name, raw := line, args := [r.1], text := r.2 }
      else
        some { name := name, raw := line, args := goFields rest }

/-- Go `parseHeader`: exactly three base-10 integer fields. -/
def parseHeader (raw : List Char) : Option BlockHeader :=
  match goFields raw with
  | [a, b, c] =>
    match parseInt64 a, parseInt64 b, parseInt64 c with
    | some x, some y, some z => some ⟨x, y, z⟩
    | _, _, _ => none
  | _ => none

/-- Go `parseBeginLine`: `none` when the line is not a begin marker,
`some none` for a malformed begin marker, `some (some h)` otherwise. -/
def parseBeginLine (line : List Char) : Option (Option BlockHeader) :=
  if !startsWithL "%begin".toList line then none
  else if !startsWithL "%begin ".toList line then some none
  else
    match parseHeader (dropPreL "%begin ".toList line) with
    | none => some none
    | some h => some (some h)

/-- Go `parseEndLine`: `none` when the line is neither an end nor an
error marker, `some none` for a malformed one, and `some (some (h, s))`
for a well-formed one with `s = true` exactly for `%end`. -/
def parseEndLine (line : List Char) : Option (Option (BlockHeader × Bool)) :=
  if startsWithL "%end".toList line then
    if !startsWithL "%end ".toList line then some none
    else
      match parseHeader (dropPreL "%end ".toList line) with
      | none => some none
      | some h => some (some (h, true))
  else if startsWithL "%error".toList line then
    if !startsWithL "%error ".toList line then some none
    else
      match parseHeader (dropPreL "%error ".toList line) with
      | none => some none
      | some h => some (some (h, false))
  else none

/-- Go `malformedControlBoundary`. -/
def malformedControlBoundary (line : List Char) : Bool :=
  (startsWithL "%begin".toList line && !startsWithL "%begin ".toList line) ||
  (startsWithL "%end".toList line && !startsWithL "%end ".toList line) ||
  (startsWithL "%error".toList line && !startsWithL "%error ".toList line)

/-- Parser-plus-stream state: the active block header together with the
output lines accumulated for it (`Parser.current` and the
`StreamParser`'s current command, which the callbacks keep in sync). -/
structure ParserSt where
  current : Option (BlockHeader × List (List Char))
deriving DecidableEq

/-- Events the stream parser emits. -/
inductive StreamEvent where
  | command (c : CommandEvent)
  | note (n : Notification)
  | parseErr (line msg : List Char)
deriving DecidableEq

/-- Go `Parser.FeedLine` composed with the `StreamParser` callbacks:
one input line to a state transition plus emitted events.  Error
message texts abbreviate the Go `fmt` messages. -/
def feedLine (st : ParserSt) (line : List Char) : ParserSt × List StreamEvent :=
  match st.current with
  | some bo =>
    match parseEndLine line with
    | some none => (st, [.parseErr line "invalid end line".toList])
    | some (some hs) =>
      let errs : List StreamEvent :=
        if bo.1 = hs.1 then []
        else [.parseErr line "mismatched block header".toList]
      (⟨none⟩, errs ++ [.command ⟨bo.1, hs.1, hs.2, bo.2⟩])
    | none =>
      if malformedControlBoundary line then
        (st, [.parseErr line "malformed control boundary".toList])
      else (⟨some (bo.1, bo.2 ++ [line])⟩, [])
  | none =>
    match parseBeginLine line with
    | some none => (st, [.parseErr line "invalid begin line".toList])
    | some (some h) => (⟨some (h, [])⟩, [])
    | none =>
      match parseEndLine line with
      | some none => (st, [.parseErr line "invalid end line".toList])
      | some (some _) => (st, [.parseErr line "end/error without begin".toList])
      | none =>
        if startsWithL ['%'] line then
          match parseNotification line with
          | some n => (st, [.note n])
          | none => (st, [.parseErr line "bad notification".toList])
        else (st, [.parseErr line "unexpected line outside command block".toList])

/-- Claim C4: inside a block, a well-formed `%end`/`%error` line whose
header differs from the begin header emits a `ParseError` and still
emits the `Command` — begin header authoritative, success from the
marker kind — and clears the active block. -/
theorem C4_mismatched_end (b : BlockHeader) (out : List (List Char))
    (line : List Char) (h : BlockHeader) (success : Bool)
    (hp : parseEndLine line = some (some (h, success))) (hne : h ≠ b) :
    feedLine ⟨some (b, out)⟩ line =
      (⟨none⟩,
       [.parseErr line "mismatched block header".toList,
        .command ⟨b, h, success, out⟩]) := by
  simp only [feedLine, hp]
  rw [if_neg (fun hb : b = h => hne hb.symm)]
  rfl

/-- Witness for C4: an active block `(100,1,0)` finished by
`%end 100 2 0`. -/
theorem C4_mismatched_end_witness :
    feedLine ⟨some (⟨100, 1, 0⟩, ["ok".toList])⟩ "%end 100 2 0".toList =
      (⟨none⟩,
       [.parseErr "%end 100 2 0".toList "mismatched block header".toList,
        .command ⟨⟨100, 1, 0⟩, ⟨100, 2, 0⟩, true, ["ok".toList]⟩]) :=
  C4_mismatched_end ⟨100, 1, 0⟩ ["ok".toList] "%end 100 2 0".toList
    ⟨100, 2, 0⟩ true (by decide) (by decide)

/-! ## Claim C7: the extended-output shape -/

theorem splitAtFirst_of_append (sep : Char) (l r : List Char)
    (h : ∀ c ∈ l, ¬(c = sep)) :
    splitAtFirst sep (l ++ sep :: r) = some (l, r) := by
  induction l with
  | nil => simp [splitAtFirst]
  | cons c cs ih =>
    rw [List.cons_append, splitAtFirst,
      if_neg (h c (List.mem_cons_self c cs)),
      ih (fun d hd => h d (List.mem_cons_of_mem c hd))]
    rfl

theorem splitAtFirst_of_not_mem (sep : Char) (l : List Char)
    (h : ∀ c ∈ l, ¬(c = sep)) :
    splitAtFirst sep l = none := by
  induction l with
  | nil => rfl
  | cons c cs ih =>
    rw [splitAtFirst, if_neg (h c (List.mem_cons_self c cs)),
      ih (fun d hd => h d (List.mem_cons_of_mem c hd))]
    rfl

/-- Reduction of `parseNotification` on an extended-output line with a
symbolic remainder. -/
theorem parseNotification_extended (rest : List Char) :
    parseNotification ('%' :: ("extended-output".toList ++ ' ' :: rest)) =
      (if (goFields (splitByColon rest).1).length < 2 then none
       else some
         { name := "extended-output".toList,
           raw := '%' :: ("extended-output".toList ++ ' ' :: rest),
           args := goFields (splitByColon rest).1,
           value := (splitByColon rest).2 }) := by
  have hsp : splitAtFirst ' ' ("extended-output".toList ++ ' ' :: rest) =
      some ("extended-output".toList, rest) :=
    splitAtFirst_of_append ' ' "extended-output".toList rest (by decide)
  have hdp : dropPreL ['%'] ('%' :: ("extended-output".toList ++ ' ' :: rest)) =
      "extended-output".toList ++ ' ' :: rest := by
    simp [dropPreL, startsWithL, List.isPrefixOf]
  have hnr : splitNameAndRest ("extended-output".toList ++ ' ' :: rest) =
      ("extended-output".toList, rest) := by
    rw [splitNameAndRest, if_neg (by simp), hsp]
  rw [parseNotification, if_neg (by simp), hdp, hnr]
  dsimp only []
  rw [if_neg (by decide), if_pos rfl]

/-- Claim C7 counterexample: for `%extended-output %1 0 :  x` (two
spaces after the colon) the code removes ALL leading spaces of the
right part (`strings.TrimLeft`), yielding value `x`, not the ` x` the
claim's one-space rule predicts. -/
theorem C7_counterexample :
    (parseNotification "%extended-output %1 0 :  x".toList).map
        Notification.value = some "x".toList ∧
    some "x".toList ≠ some " x".toList := by
  exact ⟨by decide, by decide⟩

/-- Claim C7 as amended: an `%extended-output` line is split at the
first colon; the whitespace fields of the left part become `args`, with
at least two required (fewer parses as an error, hence a `ParseError`),
and `value` is the right part with ALL leading spaces removed. -/
theorem C7_extended_output_amended (rest l r : List Char)
    (hl : ∀ c ∈ l, ¬(c = ':')) (hrest : rest = l ++ ':' :: r) :
    ((goFields l).length < 2 →
      parseNotification ('%' :: ("extended-output".toList ++ ' ' :: rest)) =
        none) ∧
    (2 ≤ (goFields l).length →
      parseNotification ('%' :: ("extended-output".toList ++ ' ' :: rest)) =
        some { name := "extended-output".toList,
               raw := '%' :: ("extended-output".toList ++ ' ' :: rest),
               args := goFields l,
               value := r.dropWhile (fun c => c = ' ') }) := by
  subst hrest
  have hbc : splitByColon (l ++ ':' :: r) =
      (trimSpace l, r.dropWhile (fun c => c = ' ')) := by
    rw [splitByColon, splitAtFirst_of_append ':' l r hl]
  rw [parseNotification_extended]
  rw [hbc]
  constructor
  · intro hlt
    have h2 : (goFields (trimSpace l, r.dropWhile (fun c => c = ' ')).1).length < 2 := by
      rw [goFields_trimSpace]
      exact hlt
    rw [if_pos h2]
  · intro hge
    have h2 : ¬(goFields (trimSpace l, r.dropWhile (fun c => c = ' ')).1).length < 2 := by
      rw [goFields_trimSpace]
      exact not_lt.mpr hge
    rw [if_neg h2]
    rw [show (trimSpace l, r.dropWhile (fun c => c = ' ')).1 = trimSpace l from rfl,
      goFields_trimSpace]

/-- Witness for the amended C7 at the spec's own sample line. -/
theorem C7_extended_output_amended_witness :
    parseNotification ('%' :: ("extended-output".toList ++ ' ' ::
        ("%1 12 foo bar ".toList ++ ':' :: " hello world".toList))) =
      some { name := "extended-output".toList,
             raw := '%' :: ("extended-output".toList ++ ' ' ::
               ("%1 12 foo bar ".toList ++ ':' :: " hello world".toList)),
             args := ["%1".toList, "12".toList, "foo".toList, "bar".toList],
             value := "hello world".toList } := by
  have h := (C7_extended_output_amended
    ("%1 12 foo bar ".toList ++ ':' :: " hello world".toList)
    "%1 12 foo bar ".toList " hello world".toList (by decide) rfl).2 (by decide)
  rw [h]
  decide

/-! ## Quoter (hub.go `encodeArgvCommand`, `quoteArg`) and the
receiver's word split -/

/-- The single-quote character. -/
def singleQuote : Char := Char.ofNat 39

/-- The backslash character. -/
def backslashChar : Char := Char.ofNat 92

/-- One character of the `safeBareToken` class
`[A-Za-z0-9_@%:./+-]`. -/
def safeBareChar (c : Char) : Bool :=
  (65 ≤ c.toNat && c.toNat ≤ 90) || (97 ≤ c.toNat && c.toNat ≤ 122) ||
  (48 ≤ c.toNat && c.toNat ≤ 57) ||
  c = '_' || c = '@' || c = '%' || c = ':' || c = '.' || c = '/' ||
  c = '+' || c = '-'

/-- Full match of the `safeBareToken` regular expression (one or more
safe characters). -/
def safeBareToken (s : List Char) : Bool :=
  !s.isEmpty && s.all safeBareChar

/-- `strings.ReplaceAll(arg, "'", "'\\''")` character by character. -/
def escReplace (a : List Char) : List Char :=
  a.flatMap (fun c =>
    if c = singleQuote then
      [singleQuote, backslashChar, singleQuote, singleQuote]
    else [c])

/-- Go `quoteArg`. -/
def quoteArg (arg : List Char) : List Char :=
  if arg = [] then [singleQuote, singleQuote]
  else if safeBareToken arg then arg
  else singleQuote :: (escReplace arg ++ [singleQuote])

/-- `strings.Join(w :: ws, " ")`. -/
def joinWords (w : List Char) (ws : List (List Char)) : List Char :=
  w ++ ws.flatMap (fun x => ' ' :: x)

/-- Go `encodeArgvCommand`; `none` models the error returns. -/
def encodeArgvCommand (argv : List (List Char)) : Option (List Char) :=
  match argv with
  | [] => none
  | a0 :: args =>
    let cmd := toLowerAscii (trimSpace a0)
    if !safeBareToken cmd then none
    else some (joinWords cmd (args.map quoteArg))

/-- Modelled from the spec: the receiver's shell-like word split the
quoter targets (space-separated words, single-quoted segments taken
verbatim, a backslash escaping the next character outside quotes) —
the claim's "receiver's shell-like word rules".  `inQ` is the quote
mode, `esc` a pending outside-quote backslash escape, `acc` the
current word reversed, `started` whether a word has begun. -/
def shWordsAux : List Char → Bool → Bool → List Char → Bool → List (List Char)
  | [], inQ, esc, acc, started =>
    if inQ = true then [acc.reverse]
    else if esc = true then [(backslashChar :: acc).reverse]
    else if started = true then [acc.reverse]
    else []
  | c :: rest, inQ, esc, acc, started =>
    if inQ = true then
      if c = singleQuote then shWordsAux rest false false acc started
      else shWordsAux rest true false (c :: acc) started
    else if esc = true then shWordsAux rest false false (c :: acc) true
    else if c = ' ' then
      if started = true then acc.reverse :: shWordsAux rest false false [] false
      else shWordsAux rest false false [] false
    else if c = singleQuote then shWordsAux rest true false acc true
    else if c = backslashChar then shWordsAux rest false true acc true
    else shWordsAux rest false false (c :: acc) true

/-- The receiver's word split of one line. -/
def shWords (s : List Char) : List (List Char) :=
  shWordsAux s false false [] false

theorem safeBareChar_ne_space {c : Char} (h : safeBareChar c = true) :
    c ≠ ' ' := by
  rintro rfl; exact absurd h (by decide)

theorem safeBareChar_ne_quote {c : Char} (h : safeBareChar c = true) :
    c ≠ singleQuote := by
  rintro rfl; exact absurd h (by decide)

theorem safeBareChar_ne_backslash {c : Char} (h : safeBareChar c = true) :
    c ≠ backslashChar := by
  rintro rfl; exact absurd h (by decide)

/-- Consuming a nonempty run of safe characters outside quotes. -/
theorem shWordsAux_bare (w : List Char) :
    ∀ t acc st, w ≠ [] → w.all safeBareChar = true →
      shWordsAux (w ++ t) false false acc st =
        shWordsAux t false false (w.reverse ++ acc) true := by
  induction w with
  | nil => intro t acc st hne _; exact absurd rfl hne
  | cons c w' ih =>
    intro t acc st _ hall
    rw [List.all_cons, Bool.and_eq_true] at hall
    have hc : safeBareChar c = true := hall.1
    have hall' : w'.all safeBareChar = true := hall.2
    rw [List.cons_append, shWordsAux, if_neg (by decide), if_neg (by decide),
      if_neg (safeBareChar_ne_space hc),
      if_neg (safeBareChar_ne_quote hc),
      if_neg (safeBareChar_ne_backslash hc)]
    cases w' with
    | nil => rfl
    | cons d w'' =>
      rw [ih t (c :: acc) true (by simp) hall']
      simp [List.append_assoc]

/-- Consuming the quoted-escaped body of an argument plus the closing
quote, from inside the quote. -/
theorem shWordsAux_escReplace (a : List Char) :
    ∀ t acc,
      shWordsAux (escReplace a ++ singleQuote :: t) true false acc true =
        shWordsAux t false false (a.reverse ++ acc) true := by
  induction a with
  | nil =>
    intro t acc
    show shWordsAux (singleQuote :: t) true false acc true = _
    rw [shWordsAux, if_pos rfl, if_pos rfl, List.reverse_nil, List.nil_append]
  | cons c a' ih =>
    intro t acc
    by_cases hc : c = singleQuote
    · subst hc
      show shWordsAux (([singleQuote, backslashChar, singleQuote, singleQuote] ++
        escReplace a') ++ singleQuote :: t) true false acc true = _
      rw [List.append_assoc]
      rw [List.cons_append, shWordsAux, if_pos rfl, if_pos rfl]
      rw [List.cons_append, shWordsAux, if_neg (by decide), if_neg (by decide),
        if_neg (by decide), if_neg (by decide), if_pos rfl]
      rw [List.cons_append, shWordsAux, if_neg (by decide), if_pos rfl]
      rw [List.cons_append, shWordsAux, if_neg (by decide), if_neg (by decide),
        if_neg (by decide), if_pos rfl, List.nil_append]
      rw [ih t (singleQuote :: acc)]
      simp [List.append_assoc]
    · have he : escReplace (c :: a') = c :: escReplace a' := by
        rw [escReplace, List.flatMap_cons, if_neg hc]
        rfl
      rw [he, List.cons_append]
      rw [shWordsAux, if_pos rfl, if_neg hc]
      rw [ih t (c :: acc)]
      simp [List.append_assoc]

/-- Consuming one encoded argument outside quotes. -/
theorem shWordsAux_quoteArg (a : List Char) (t acc : List Char) (st : Bool) :
    shWordsAux (quoteArg a ++ t) false false acc st =
      shWordsAux t false false (a.reverse ++ acc) true := by
  by_cases ha : a = []
  · subst ha
    have hq : quoteArg [] = [singleQuote, singleQuote] := rfl
    rw [hq, List.cons_append, shWordsAux, if_neg (by decide),
      if_neg (by decide), if_neg (by decide), if_pos rfl]
    rw [List.cons_append, shWordsAux, if_pos rfl, if_pos rfl]
    rfl
  · by_cases hs : safeBareToken a = true
    · rw [quoteArg, if_neg ha, if_pos hs]
      have hall : a.all safeBareChar = true := by
        unfold safeBareToken at hs
        exact (Bool.and_eq_true _ _ |>.mp hs).2
      exact shWordsAux_bare a t acc st ha hall
    · rw [quoteArg, if_neg ha, if_neg hs]
      rw [List.cons_append, shWordsAux, if_neg (by decide),
        if_neg (by decide), if_neg (by decide), if_pos rfl,
        List.append_assoc, List.singleton_append]
      exact shWordsAux_escReplace a t acc

/-- Splitting the joined tail arguments after a word has been read. -/
theorem shWordsAux_args (args : List (List Char)) :
    ∀ w : List Char,
      shWordsAux (args.flatMap (fun a => ' ' :: quoteArg a)) false false
          w.reverse true = w :: args := by
  induction args with
  | nil =>
    intro w
    show shWordsAux [] false false w.reverse true = _
    rw [shWordsAux, if_neg (by decide), if_neg (by decide), if_pos rfl,
      List.reverse_reverse]
  | cons a args' ih =>
    intro w
    rw [List.flatMap_cons, List.cons_append, shWordsAux, if_neg (by decide),
      if_neg (by decide), if_pos rfl, if_pos rfl, List.reverse_reverse]
    rw [shWordsAux_quoteArg a _ [] false, List.append_nil]
    rw [ih a]

/-- Claim C3 counterexample: for argv `["A"]` the trimmed lowercased
command is safe, but the emitted line is `a`, so the receiver's split
returns `["a"]`, not the original argv `["A"]`. -/
theorem C3_counterexample :
    safeBareToken (toLowerAscii (trimSpace "A".toList)) = true ∧
    encodeArgvCommand ["A".toList] = some "a".toList ∧
    shWords "a".toList = ["a".toList] ∧
    ["a".toList] ≠ ["A".toList] :=
  ⟨by decide, by decide, by decide, by decide⟩

/-- Claim C3 as amended: when the first element trims and lowercases to
a safe bare token, encoding succeeds and the receiver's split returns
the argv with its first element REPLACED by that trimmed lowercased
form (the original argv exactly when the first element is already
trimmed and lowercase); an empty argv is an error, and the two sample
encodings hold. -/
theorem C3_quoter_roundtrip_amended :
    (∀ a0 args, safeBareToken (toLowerAscii (trimSpace a0)) = true →
      encodeArgvCommand (a0 :: args) =
        some (joinWords (toLowerAscii (trimSpace a0)) (args.map quoteArg)) ∧
      shWords (joinWords (toLowerAscii (trimSpace a0)) (args.map quoteArg)) =
        toLowerAscii (trimSpace a0) :: args) ∧
    encodeArgvCommand [] = none ∧
    encodeArgvCommand ["send-keys".toList, "-t".toList, "%1".toList,
        "-l".toList, "a'b".toList] =
      some "send-keys -t %1 -l 'a'\\''b'".toList ∧
    encodeArgvCommand ["send-keys".toList, "-t".toList, "%1".toList,
        "-l".toList, "hello world".toList] =
      some "send-keys -t %1 -l 'hello world'".toList := by
  refine ⟨?_, by decide, by decide, by decide⟩
  intro a0 args h
  have hne : toLowerAscii (trimSpace a0) ≠ [] := by
    intro e
    rw [safeBareToken, e] at h
    exact absurd h (by decide)
  have hall : (toLowerAscii (trimSpace a0)).all safeBareChar = true := by
    rw [safeBareToken, Bool.and_eq_true] at h
    exact h.2
  constructor
  · rw [encodeArgvCommand]
    simp only [safeBareToken, Bool.and_eq_true] at h
    simp [safeBareToken, h.1, h.2]
  · rw [shWords, joinWords,
      shWordsAux_bare (toLowerAscii (trimSpace a0)) _ [] false hne hall,
      List.append_nil]
    have hmap : (args.map quoteArg).flatMap (fun x => ' ' :: x) =
        args.flatMap (fun a => ' ' :: quoteArg a) := by
      induction args with
      | nil => rfl
      | cons a as ih => simp [List.flatMap_cons, ih]
    rw [hmap]
    exact shWordsAux_args args (toLowerAscii (trimSpace a0))

/-- Witness for the amended C3 at the spec's quote-escape sample. -/
theorem C3_quoter_roundtrip_amended_witness :
    shWords "send-keys -t %1 -l 'a'\\''b'".toList =
      ["send-keys".toList, "-t".toList, "%1".toList, "-l".toList,
       "a'b".toList] := by
  have h := (C3_quoter_roundtrip_amended.1 "send-keys".toList
    ["-t".toList, "%1".toList, "-l".toList, "a'b".toList] (by decide)).2
  have hline : joinWords (toLowerAscii (trimSpace "send-keys".toList))
      (["-t".toList, "%1".toList, "-l".toList, "a'b".toList].map quoteArg) =
      "send-keys -t %1 -l 'a'\\''b'".toList := by decide
  rw [hline] at h
  rw [h]
  decide

/-! ## Output decoding (internal/tmuxparse/escape.go) and the per-pane
carry decoder.  Protocol values and decoded data are byte sequences,
modelled as `List Nat` with each byte below 256. -/

/-- Go `isOctal` (escape.go) on a byte value. -/
def isOctalByte (b : Nat) : Bool :=
  48 ≤ b && b ≤ 55

/-- Go `DecodeEscapedValue`: walk the value byte by byte; a backslash
followed by a backslash emits one backslash, a backslash followed by
three octal digits emits the decoded byte, any other backslash is kept
verbatim. -/
def decodeEscapedValue : List Nat → List Nat
  | [] => []
  | 92 :: 92 :: t => 92 :: decodeEscapedValue t
  | 92 :: a :: b :: c :: t =>
    if isOctalByte a && isOctalByte b && isOctalByte c then
      ((a - 48) * 64 + (b - 48) * 8 + (c - 48)) :: decodeEscapedValue t
    else 92 :: decodeEscapedValue (a :: b :: c :: t)
  | 92 :: rest => 92 :: decodeEscapedValue rest
  | b :: rest => b :: decodeEscapedValue rest

/-- Modelled from the spec: the protocol-side encoder the decoder
inverts (`%output` payloads escape non-printables as `\ooo` octal
triples and backslash as `\\`); it is tmux's, not part of this
repository.  One byte to its wire token. -/
def encByte (b : Nat) : List Nat :=
  if b = 92 then [92, 92]
  else if 32 ≤ b && b < 127 then [b]
  else [92, b / 64 + 48, b / 8 % 8 + 48, b % 8 + 48]

/-- The encoding of a byte sequence: the concatenation of its tokens. -/
def encodeEscapedValue (bs : List Nat) : List Nat :=
  bs.flatMap encByte

theorem decodeEscapedValue_encode_append (bs : List Nat) :
    ∀ m, (∀ b ∈ bs, b < 256) →
      decodeEscapedValue (encodeEscapedValue bs ++ m) =
        bs ++ decodeEscapedValue m := by
  induction bs with
  | nil => intro m _; rfl
  | cons b bs' ih =>
    intro m hlt
    have hb : b < 256 := hlt b (List.mem_cons_self b bs')
    have hrest : ∀ x ∈ bs', x < 256 :=
      fun x hx => hlt x (List.mem_cons_of_mem b hx)
    rw [encodeEscapedValue, List.flatMap_cons]
    by_cases h92 : b = 92
    · subst h92
      rw [encByte, if_pos rfl]
      show decodeEscapedValue (92 :: 92 :: (encodeEscapedValue bs' ++ m)) = _
      rw [decodeEscapedValue, ih m hrest]
      rfl
    · by_cases hpr : 32 ≤ b ∧ b < 127
      · rw [encByte, if_neg h92, if_pos (by simp [hpr.1, hpr.2])]
        show decodeEscapedValue (b :: (encodeEscapedValue bs' ++ m)) = _
        rw [decodeEscapedValue.eq_5 b _ (fun _ hb _ => absurd hb h92)
          (fun _ _ _ _ hb _ => absurd hb h92) h92, ih m hrest]
        rfl
      · rw [encByte, if_neg h92, if_neg (by simpa using hpr)]
        show decodeEscapedValue (92 :: (b / 64 + 48) :: (b / 8 % 8 + 48) ::
          (b % 8 + 48) :: (encodeEscapedValue bs' ++ m)) = _
        rw [decodeEscapedValue.eq_3 _ _ _ _ (by omega),
          if_pos (by simp only [isOctalByte, Bool.and_eq_true,
            decide_eq_true_eq]; omega),
          ih m hrest]
        have hv : (b / 64 + 48 - 48) * 64 + (b / 8 % 8 + 48 - 48) * 8 +
            (b % 8 + 48 - 48) = b := by omega
        rw [hv]
        rfl

/-- A UTF-8 continuation byte. -/
def isContByte (b : Nat) : Bool :=
  128 ≤ b && b < 192

/-- Total length of the UTF-8 sequence a lead byte starts (1 for
ASCII, 2-4 for multi-byte leads, 0 for bytes that cannot lead). -/
def utf8LeadLen (b : Nat) : Nat :=
  if b < 128 then 1
  else if 192 ≤ b && b < 224 then 2
  else if 224 ≤ b && b < 240 then 3
  else if 240 ≤ b && b < 248 then 4
  else 0

/-- Third byte of a candidate incomplete suffix (reversed order). -/
def pending3 : List Nat → Nat
  | [] => 0
  | z :: _ => if 3 < utf8LeadLen z then 3 else 0

/-- Second byte of a candidate incomplete suffix (reversed order). -/
def pending2 : List Nat → Nat
  | [] => 0
  | y :: rest2 =>
    if 2 < utf8LeadLen y then 2
    else if isContByte y then pending3 rest2
    else 0

/-- Length of the trailing incomplete UTF-8 sequence of a byte string,
computed on the REVERSED string: a multi-byte lead as last byte, or
continuation bytes followed by a lead expecting more than they
provide. -/
def pendingLenRev : List Nat → Nat
  | [] => 0
  | x :: rest =>
    if 1 < utf8LeadLen x then 1
    else if isContByte x then pending2 rest
    else 0

/-- Modelled from the spec: `splitUTF8AtSafeBoundary` (referenced by
the package's tests but missing from src) — split decoded bytes into a
part safe to emit and the trailing bytes of an incomplete UTF-8
sequence, which the per-pane carry keeps for the next chunk. -/
def splitUTF8AtSafeBoundary (bs : List Nat) : List Nat × List Nat :=
  let k := pendingLenRev bs.reverse
  (bs.take (bs.length - k), bs.drop (bs.length - k))

/-- Modelled from the spec: `Hub.decodePaneOutputData` (referenced by
the package's tests but missing from src) — octal-decode one `%output`
value for a pane, prepend that pane's carry, and withhold a trailing
incomplete UTF-8 sequence as the new carry.  `carry` is the
`outputUTF8Carry` entry of the pane; the pair is (emitted data, new
carry). -/
def decodePaneOutputData (carry : List Nat) (value : List Nat) :
    List Nat × List Nat :=
  splitUTF8AtSafeBoundary (carry ++ decodeEscapedValue value)

/-- Feeding successive chunk values through the carry decoder,
returning the concatenated emitted data and the final carry. -/
def feedChunks (carry : List Nat) : List (List Nat) → List Nat × List Nat
  | [] => ([], carry)
  | v :: vs =>
    let r := decodePaneOutputData carry v
    let rest := feedChunks r.2 vs
    (r.1 ++ rest.1, rest.2)

theorem pendingLenRev_le (r : List Nat) : pendingLenRev r ≤ r.length := by
  match r with
  | [] => exact Nat.le_refl 0
  | x :: rest =>
    rw [pendingLenRev]
    by_cases h1 : 1 < utf8LeadLen x
    · rw [if_pos h1]; simp
    · rw [if_neg h1]
      by_cases h2 : isContByte x = true
      · rw [if_pos h2]
        match rest with
        | [] => simp [pending2]
        | y :: rest2 =>
          rw [pending2]
          by_cases h3 : 2 < utf8LeadLen y
          · rw [if_pos h3]; simp
          · rw [if_neg h3]
            by_cases h4 : isContByte y = true
            · rw [if_pos h4]
              match rest2 with
              | [] => simp [pending3]
              | z :: rest3 =>
                rw [pending3]
                by_cases h5 : 3 < utf8LeadLen z
                · rw [if_pos h5]; simp
                · rw [if_neg h5]; simp
            · rw [if_neg h4]; simp
      · rw [if_neg h2]; simp

theorem pending3_of_pending2_zero (r : List Nat) (h : pending2 r = 0) :
    pending3 r = 0 := by
  match r with
  | [] => rfl
  | y :: rest2 =>
    rw [pending2] at h
    rw [pending3]
    by_cases h3 : 3 < utf8LeadLen y
    · rw [if_pos (by omega : 2 < utf8LeadLen y)] at h
      exact absurd h (by omega)
    · rw [if_neg h3]

theorem pending2_of_pendingLenRev_zero (r : List Nat)
    (h : pendingLenRev r = 0) : pending2 r = 0 := by
  match r with
  | [] => rfl
  | x :: rest =>
    rw [pendingLenRev] at h
    rw [pending2]
    by_cases h1 : 1 < utf8LeadLen x
    · rw [if_pos h1] at h; exact absurd h (by omega)
    · rw [if_neg h1] at h
      rw [if_neg (by omega : ¬2 < utf8LeadLen x)]
      by_cases h2 : isContByte x = true
      · rw [if_pos h2] at h
        rw [if_pos h2]
        exact pending3_of_pending2_zero rest h
      · rw [if_neg h2]

theorem pending3_of_pendingLenRev_zero (r : List Nat)
    (h : pendingLenRev r = 0) : pending3 r = 0 := by
  match r with
  | [] => rfl
  | x :: rest =>
    rw [pendingLenRev] at h
    rw [pending3]
    by_cases h1 : 1 < utf8LeadLen x
    · rw [if_pos h1] at h; exact absurd h (by omega)
    · rw [if_neg (by omega : ¬3 < utf8LeadLen x)]

/-- The incomplete suffix of a string is itself its own incomplete
suffix: taking the pending length preserves the pending length. -/
theorem pendingLenRev_take (r : List Nat) :
    pendingLenRev (r.take (pendingLenRev r)) = pendingLenRev r := by
  match r with
  | [] => rfl
  | x :: rest =>
    rw [pendingLenRev]
    by_cases h1 : 1 < utf8LeadLen x
    · rw [if_pos h1]
      show pendingLenRev [x] = 1
      rw [pendingLenRev, if_pos h1]
    · rw [if_neg h1]
      by_cases h2 : isContByte x = true
      · rw [if_pos h2]
        match rest with
        | [] =>
          show pendingLenRev (List.take (pending2 []) (x :: [])) = pending2 []
          rfl
        | y :: rest2 =>
          rw [pending2]
          by_cases h3 : 2 < utf8LeadLen y
          · rw [if_pos h3]
            show pendingLenRev [x, y] = 2
            rw [pendingLenRev, if_neg h1, if_pos h2, pending2, if_pos h3]
          · rw [if_neg h3]
            by_cases h4 : isContByte y = true
            · rw [if_pos h4]
              match rest2 with
              | [] =>
                show pendingLenRev (List.take (pending3 []) _) = pending3 []
                rfl
              | z :: rest3 =>
                rw [pending3]
                by_cases h5 : 3 < utf8LeadLen z
                · rw [if_pos h5]
                  show pendingLenRev [x, y, z] = 3
                  rw [pendingLenRev, if_neg h1, if_pos h2, pending2,
                    if_neg h3, if_pos h4, pending3, if_pos h5]
                · rw [if_neg h5]
                  rfl
            · rw [if_neg h4]
              rfl
      · rw [if_neg h2]
        rfl

theorem utf8LeadLen_of_cont {x : Nat} (h : isContByte x = true) :
    utf8LeadLen x = 0 := by
  rw [isContByte, Bool.and_eq_true, decide_eq_true_eq, decide_eq_true_eq] at h
  rw [utf8LeadLen, if_neg (by omega), if_neg (by simp; omega),
    if_neg (by simp; omega), if_neg (by simp; omega)]

theorem pending3_head (y : Nat) (X Y : List Nat) :
    pending3 (y :: X) = pending3 (y :: Y) := by
  rw [pending3, pending3]

theorem pending2_cases (r : List Nat) :
    pending2 r = 0 ∨ pending2 r = 2 ∨ pending2 r = 3 := by
  match r with
  | [] => exact Or.inl rfl
  | y :: rest2 =>
    rw [pending2]
    by_cases h3 : 2 < utf8LeadLen y
    · rw [if_pos h3]; exact Or.inr (Or.inl rfl)
    · rw [if_neg h3]
      by_cases h4 : isContByte y = true
      · rw [if_pos h4]
        match rest2 with
        | [] => exact Or.inl rfl
        | z :: rest3 =>
          rw [pending3]
          by_cases h5 : 3 < utf8LeadLen z
          · rw [if_pos h5]; exact Or.inr (Or.inr rfl)
          · rw [if_neg h5]; exact Or.inl rfl
      · rw [if_neg h4]; exact Or.inl rfl

theorem pending3_stable (ra : List Nat) :
    pending3 (ra.take (pendingLenRev ra)) = pending3 ra := by
  match ra with
  | [] => rfl
  | x :: rest =>
    rw [pendingLenRev]
    by_cases h1 : 1 < utf8LeadLen x
    · rw [if_pos h1]
      exact pending3_head x [] rest
    · rw [if_neg h1]
      by_cases h2 : isContByte x = true
      · rw [if_pos h2]
        rcases pending2_cases rest with h0 | h0 | h0 <;> rw [h0]
        · show pending3 [] = pending3 (x :: rest)
          rw [pending3, pending3,
            if_neg (by rw [utf8LeadLen_of_cont h2]; omega)]
        · exact pending3_head x _ rest
        · exact pending3_head x _ rest
      · rw [if_neg h2]
        show pending3 [] = pending3 (x :: rest)
        rw [pending3, pending3, if_neg (by omega)]

theorem pending2_stable (ra : List Nat) :
    pending2 (ra.take (pendingLenRev ra)) = pending2 ra := by
  match ra with
  | [] => rfl
  | x :: rest =>
    rw [pendingLenRev]
    by_cases h1 : 1 < utf8LeadLen x
    · rw [if_pos h1]
      show pending2 [x] = pending2 (x :: rest)
      rw [pending2, pending2]
      by_cases h3 : 2 < utf8LeadLen x
      · rw [if_pos h3, if_pos h3]
      · rw [if_neg h3, if_neg h3]
        have hnc : ¬isContByte x = true := by
          intro hc
          rw [utf8LeadLen_of_cont hc] at h1
          omega
        rw [if_neg hnc, if_neg hnc]
    · rw [if_neg h1]
      by_cases h2 : isContByte x = true
      · rw [if_pos h2]
        have hld : utf8LeadLen x = 0 := utf8LeadLen_of_cont h2
        rcases pending2_cases rest with h0 | h0 | h0 <;> rw [h0]
        · show pending2 [] = pending2 (x :: rest)
          rw [pending2, pending2,
            if_neg (show ¬2 < utf8LeadLen x by omega), if_pos h2,
            pending3_of_pending2_zero rest h0]
        · show pending2 (x :: rest.take 1) = pending2 (x :: rest)
          rw [pending2, pending2]
          match rest with
          | [] => rfl
          | y :: r2 =>
            rw [show List.take 1 (y :: r2) = y :: List.take 0 r2 from rfl,
              pending3_head y (r2.take 0) r2]
        · show pending2 (x :: rest.take 2) = pending2 (x :: rest)
          rw [pending2, pending2]
          match rest with
          | [] => rfl
          | y :: r2 =>
            rw [show List.take 2 (y :: r2) = y :: List.take 1 r2 from rfl,
              pending3_head y (r2.take 1) r2]
      · rw [if_neg h2]
        show pending2 [] = pending2 (x :: rest)
        rw [pending2, pending2,
          if_neg (show ¬2 < utf8LeadLen x by omega), if_neg h2]

theorem pendingLenRev_first3 (u v w : Nat) (X Y : List Nat) :
    pendingLenRev (u :: v :: w :: X) = pendingLenRev (u :: v :: w :: Y) := by
  rw [pendingLenRev, pendingLenRev, pending2, pending2,
    pending3_head w X Y]

/-- The core stability fact: replacing a processed string by its
withheld incomplete suffix does not change the pending length of any
extension. -/
theorem pending_stable (rb ra : List Nat) :
    pendingLenRev (rb ++ ra.take (pendingLenRev ra)) =
      pendingLenRev (rb ++ ra) := by
  match rb with
  | [] =>
    rw [List.nil_append, List.nil_append]
    exact pendingLenRev_take ra
  | [u] =>
    rw [List.cons_append, List.nil_append, List.cons_append, List.nil_append,
      pendingLenRev, pendingLenRev, pending2_stable ra]
  | [u, v] =>
    rw [List.cons_append, List.cons_append, List.nil_append,
      List.cons_append, List.cons_append, List.nil_append,
      pendingLenRev, pendingLenRev, pending2, pending2, pending3_stable ra]
  | u :: v :: w :: rb' =>
    rw [List.cons_append, List.cons_append, List.cons_append,
      List.cons_append, List.cons_append, List.cons_append]
    exact pendingLenRev_first3 u v w _ _

theorem take_sub_append (u v : List Nat) (k : Nat) (h : k ≤ v.length) :
    (u ++ v).take ((u ++ v).length - k) = u ++ v.take (v.length - k) := by
  rw [List.length_append,
    show u.length + v.length - k = u.length + (v.length - k) from by omega,
    List.take_append]

theorem drop_sub_append (u v : List Nat) (k : Nat) (h : k ≤ v.length) :
    (u ++ v).drop ((u ++ v).length - k) = v.drop (v.length - k) := by
  rw [List.length_append,
    show u.length + v.length - k = u.length + (v.length - k) from by omega,
    List.drop_append]

/-- Streaming correctness of the safe-boundary splitter: splitting a
string, carrying its withheld suffix into the next chunk and splitting
again emits and withholds exactly what one split of the concatenation
would. -/
theorem splitUTF8_stream (a b : List Nat) :
    (splitUTF8AtSafeBoundary a).1 ++
        (splitUTF8AtSafeBoundary ((splitUTF8AtSafeBoundary a).2 ++ b)).1 =
      (splitUTF8AtSafeBoundary (a ++ b)).1 ∧
    (splitUTF8AtSafeBoundary ((splitUTF8AtSafeBoundary a).2 ++ b)).2 =
      (splitUTF8AtSafeBoundary (a ++ b)).2 := by
  have hk1le : pendingLenRev a.reverse ≤ a.length := by
    simpa using pendingLenRev_le a.reverse
  have hc1rev : (a.drop (a.length - pendingLenRev a.reverse)).reverse =
      a.reverse.take (pendingLenRev a.reverse) := List.take_reverse.symm
  have hkey : pendingLenRev
      ((a.drop (a.length - pendingLenRev a.reverse) ++ b).reverse) =
      pendingLenRev ((a ++ b).reverse) := by
    rw [List.reverse_append, hc1rev, List.reverse_append]
    exact pending_stable b.reverse a.reverse
  have hklen : pendingLenRev ((a ++ b).reverse) ≤
      (a.drop (a.length - pendingLenRev a.reverse) ++ b).length := by
    rw [← hkey,
      ← List.length_reverse (a.drop (a.length - pendingLenRev a.reverse) ++ b)]
    exact pendingLenRev_le _
  have hab : a ++ b = a.take (a.length - pendingLenRev a.reverse) ++
      (a.drop (a.length - pendingLenRev a.reverse) ++ b) := by
    rw [← List.append_assoc, List.take_append_drop]
  simp only [splitUTF8AtSafeBoundary]
  rw [hkey]
  rw [hab] at hklen
  constructor
  · rw [hab]
    exact (take_sub_append _ _ _ hklen).symm
  · rw [hab]
    exact (drop_sub_append _ _ _ hklen).symm

theorem feedChunks_eq (bss : List (List Nat)) :
    ∀ carry, (∀ b ∈ bss.flatten, b < 256) → bss ≠ [] →
      feedChunks carry (bss.map encodeEscapedValue) =
        splitUTF8AtSafeBoundary (carry ++ bss.flatten) := by
  induction bss with
  | nil => intro carry _ hne; exact absurd rfl hne
  | cons bs1 rest ih =>
    intro carry hlt _
    have hbs1 : ∀ b ∈ bs1, b < 256 := by
      intro b hb
      exact hlt b (by rw [List.flatten_cons]; exact List.mem_append_left _ hb)
    have hdec : decodeEscapedValue (encodeEscapedValue bs1) = bs1 := by
      have h0 := decodeEscapedValue_encode_append bs1 [] hbs1
      rw [decodeEscapedValue] at h0
      simpa using h0
    cases rest with
    | nil =>
      simp only [List.map_cons, List.map_nil, feedChunks,
        decodePaneOutputData, hdec, List.append_nil, List.flatten_cons,
        List.flatten_nil]
    | cons bs2 rest' =>
      have hrest : ∀ b ∈ (bs2 :: rest').flatten, b < 256 := by
        intro b hb
        exact hlt b (by rw [List.flatten_cons]; exact List.mem_append_right _ hb)
      rw [List.map_cons, feedChunks]
      simp only [decodePaneOutputData, hdec]
      rw [ih (splitUTF8AtSafeBoundary (carry ++ bs1)).2 hrest (by simp)]
      have hs := splitUTF8_stream (carry ++ bs1) (bs2 :: rest').flatten
      rw [hs.1, hs.2]
      simp [List.flatten_cons, List.append_assoc]

/-- Claim C2 counterexample: the chunks `\3` and `42\224\200` form a
split of the encoding of the bytes of U+2500, but feeding them through
the carry decoder yields `\3` then `42` plus two stray continuation
bytes — not the bytes the whole encoding decodes to, because a split
inside an escape token breaks escape parsing (the carry applies to
decoded bytes, not to escape sequences). -/
theorem C2_counterexample :
    [92, 51] ++ [52, 50, 92, 50, 50, 52, 92, 50, 48, 48] =
      encodeEscapedValue [226, 148, 128] ∧
    (feedChunks [] [[92, 51], [52, 50, 92, 50, 50, 52, 92, 50, 48, 48]]).1 ≠
      (decodePaneOutputData [] (encodeEscapedValue [226, 148, 128])).1 :=
  ⟨by decide, by decide⟩

/-- Claim C2 as amended: for every byte string and every split of its
encoding at escape-token boundaries (each chunk the encoding of a
piece of the bytes), feeding the chunks through the per-pane
carry-preserving decoder equals decoding the whole encoding at once
through it — both the concatenated data and the final carry; and the
`\342` / `\224\200` example behaves exactly as claimed. -/
theorem C2_octal_carry_roundtrip_amended :
    (∀ bss : List (List Nat), (∀ b ∈ bss.flatten, b < 256) →
      feedChunks [] (bss.map encodeEscapedValue) =
        decodePaneOutputData [] (encodeEscapedValue bss.flatten)) ∧
    decodePaneOutputData [] [92, 51, 52, 50] = ([], [226]) ∧
    decodePaneOutputData [226] [92, 50, 50, 52, 92, 50, 48, 48] =
      ([226, 148, 128], []) := by
  refine ⟨?_, by decide, by decide⟩
  intro bss hlt
  cases bss with
  | nil => rfl
  | cons b1 rest =>
    rw [feedChunks_eq (b1 :: rest) [] hlt (by simp)]
    have hdec : decodeEscapedValue (encodeEscapedValue (b1 :: rest).flatten) =
        (b1 :: rest).flatten := by
      have h0 := decodeEscapedValue_encode_append (b1 :: rest).flatten [] hlt
      rw [decodeEscapedValue] at h0
      simpa using h0
    rw [decodePaneOutputData, hdec, List.nil_append]

/-- Witness for the amended C2 at the spec's `\342` / `\224\200`
chunking. -/
theorem C2_octal_carry_roundtrip_amended_witness :
    feedChunks [] ([[226], [148, 128]].map encodeEscapedValue) =
      decodePaneOutputData []
        (encodeEscapedValue ([[226], [148, 128]] : List (List Nat)).flatten) :=
  C2_octal_carry_roundtrip_amended.1 [[226], [148, 128]] (by decide)
